import Mathlib

/-!
Shallow embedding of the live-session synchronization layer of the
repository (src/scripts/detect_live_stream.py and
src/scripts/detect_live_game_best_move.py).

The chess rules engine (`python-chess`) and the analysis engine
(Stockfish) are external collaborators; they are modelled abstractly by
a `Rules` record of oracles, exactly at the interface the scripts use:
move legality for `push_uci`/`push_san`, terminality for
`board.is_game_over`, FEN parsing/rendering for `chess.Board(fen)` /
`board.fen()`.  Positions reached by replaying from the initial position
are represented by their move list; `board.turn` is white (`true`,
mirroring `chess.WHITE = True`) iff the number of applied moves is even.
Time budgets are in milliseconds (the scripts use float seconds; 0.8 s
is 800 ms).
-/

namespace LiveStream

/-- The external rules-engine collaborator (`chess` library), abstracted
at the interface the scripts consume.  `uciOk ms m` says whether
`board.push_uci(m)` succeeds on the board obtained by replaying `ms`
from the initial position; `sanOk init ms m` likewise for
`board.push_san(m)` on a board built from FEN `init` (`none` =
startpos); `gameOver ms` is `board.is_game_over()`; `validFen s` is
whether `chess.Board(s)` succeeds; `renderFen init ms` is
`board.fen()`. -/
structure Rules where
  uciOk : List String → String → Bool
  sanOk : Option String → List String → String → Bool
  gameOver : List String → Bool
  validFen : String → Bool
  renderFen : Option String → List String → String

/-- Python's `str.lower()` on the names the scripts compare
(case-insensitive username matching), given characterwise. -/
def lower (s : String) : String :=
  String.mk (s.data.map Char.toLower)

/-- `board.turn` after replaying `ms` from the initial position:
`chess.WHITE` (`true`) iff an even number of plies was played. -/
def turn (ms : List String) : Bool :=
  ms.length % 2 = 0

/-- Whether replaying the whole move list with `board.push_uci` succeeds
(every move legal on the position built from the preceding prefix).  In
the scripts a failing `push_uci` raises, so a single illegal move makes
the whole replay raise. -/
def replayUci (rules : Rules) : List String → List String → Bool
  | _, [] => true
  | acc, m :: rest => rules.uciOk acc m && replayUci rules (acc ++ [m]) rest

/-- Observable outcome of one `analyse_and_print_position` call.
`missingNames` is the early return when a player name is falsy;
`gameOver` the "Game over vs ..." branch; `request b` the branch that
invokes `engine.analyse` with time budget `b` milliseconds (covering
both the normal and the "no engine move available" print-outs, which
differ only after the engine call); `waiting` the
"Waiting for opponent" branch. -/
inductive Action where
  | missingNames
  | gameOver
  | request (budgetMs : Nat)
  | waiting
deriving DecidableEq, Repr

/-- The monitored user's color as computed at lines 175-176:
`is_white = white.lower() == username.lower()`, then `user_color =
chess.WHITE if is_white else chess.BLACK`, i.e. the Bool `is_white`
itself (`chess.WHITE` is `True`). -/
def user_color (username white : String) : Bool :=
  lower white = lower username

/-- `analyse_and_print_position(engine, board, username, white, black,
game_id)` from detect_live_stream.py, lines 171-221, with the board
given by its replayed move list.  The engine call uses the literal
`chess.engine.Limit(time=0.8)`, i.e. budget 800 ms. -/
def analyse_and_print_position (rules : Rules) (ms : List String)
    (username white black : String) : Action :=
  if white = "" ∨ black = "" then .missingNames
  else if turn ms = user_color username white then
    if rules.gameOver ms then .gameOver
    else .request 800
  else .waiting

/-- A rules engine in which every move is legal and no position is
terminal; used to instantiate theorems at concrete inputs. -/
def allLegalRules : Rules where
  uciOk := fun _ _ => true
  sanOk := fun _ _ _ => true
  gameOver := fun _ => false
  validFen := fun _ => true
  renderFen := fun _ ms => String.intercalate " " ms

example : analyse_and_print_position allLegalRules [] "a" "a" "b" = .request 800 := by
  decide

example : analyse_and_print_position allLegalRules ["e2e4"] "a" "a" "b" = .waiting := by
  decide

/-! ## The per-session stream loop (`stream_game`, lines 263-341) -/

/-- One parsed line of the game stream, after the skips the loop
performs (empty lines, JSON parse failures, non-dict payloads, events
without a `type` field and events of unknown type all behave alike:
the loop `continue`s).  `gameFull` carries the replayed move list and
the two player names as produced by `player_name`; `gameState` carries
only the move list. -/
inductive StreamEvent where
  | gameFull (ms : List String) (white black : String)
  | gameState (ms : List String)
  | skipped
deriving DecidableEq, Repr

/-- The mutable locals of the `stream_game` loop: the board (as its
replayed move list), the two player names (`""` plays the role of
Python's falsy `None`, matching the `if not white or not black`
guard), and `last_position_key`. -/
structure LoopState where
  moves : List String
  white : String
  black : String
  lastKey : Option (Nat × Bool)
deriving DecidableEq, Repr

/-- Loop-local state at the top of `stream_game` (lines 265-268). -/
def initLoopState : LoopState where
  moves := []
  white := ""
  black := ""
  lastKey := none

/-- The position key computed at line 330 / line 250:
`(len(board.move_stack), board.turn)`. -/
def positionKey (ms : List String) : Nat × Bool :=
  (ms.length, turn ms)

/-- The tail of the loop body shared by `gameFull` and `gameState`
(lines 326-335): skip while a player name is falsy, skip when the
position key equals `last_position_key`, otherwise store the key and
call `analyse_and_print_position`. -/
def afterBoardUpdate (rules : Rules) (username : String) (s : LoopState) :
    LoopState × Option Action :=
  if s.white = "" ∨ s.black = "" then (s, none)
  else
    let key := positionKey s.moves
    if s.lastKey = some key then (s, none)
    else ({ s with lastKey := some key },
          some (analyse_and_print_position rules s.moves username s.white s.black))

/-- One iteration of the `stream_game` loop body (lines 290-335) on one
parsed event.  `none` models an exception escaping the body — the only
unguarded raise is `board.push_uci` on an illegal or unparseable move
(lines 311, 321), which aborts the whole loop (caught only by the
`except` at line 337). -/
def processLine (rules : Rules) (username : String) (s : LoopState) :
    StreamEvent → Option (LoopState × Option Action)
  | .skipped => some (s, none)
  | .gameFull ms w b =>
    if replayUci rules [] ms then
      afterBoardUpdate rules username { s with moves := ms, white := w, black := b }
    else none
  | .gameState ms =>
    if replayUci rules [] ms then
      afterBoardUpdate rules username { s with moves := ms }
    else none

/-- Runs the `stream_game` loop over a list of parsed events, returning
the final locals, the `analyse_and_print_position` outcomes in order,
and whether the loop was aborted by an exception. -/
def runLoop (rules : Rules) (username : String) (s : LoopState) :
    List StreamEvent → LoopState × List Action × Bool
  | [] => (s, [], false)
  | e :: rest =>
    match processLine rules username s e with
    | none => (s, [], true)
    | some (s1, act) =>
      let r := runLoop rules username s1 rest
      (r.1, act.toList ++ r.2.1, r.2.2)

/-- Result of one `stream_game` call: whether the open failed (early
return at line 286), the actions emitted while streaming, the final
loop locals, whether the streaming loop raised, and whether
`fallback_poll_game` was entered (line 340-341). -/
structure StreamGameResult where
  openFailed : Bool
  actions : List Action
  finalState : LoopState
  aborted : Bool
  polled : Bool
deriving DecidableEq, Repr

/-- `stream_game(game_id, token, username, engine_path, is_bot_account)`
(lines 263-341), with the transport abstracted: `openResult` is `none`
when `stream_game_lines` exhausted every endpoint (the `if not
line_iter` branch prints diagnostics and returns at line 286, skipping
the fallback), and `some events` gives the parsed lines of an opened
stream.  After the `try` block — whether the loop finished or raised —
line 340 enters `fallback_poll_game` exactly when the account is not a
bot account. -/
def stream_game (rules : Rules) (username : String) (is_bot_account : Bool)
    (openResult : Option (List StreamEvent)) : StreamGameResult :=
  match openResult with
  | none =>
    { openFailed := true, actions := [], finalState := initLoopState,
      aborted := false, polled := false }
  | some events =>
    let r := runLoop rules username initLoopState events
    { openFailed := false, actions := r.2.1, finalState := r.1,
      aborted := r.2.2, polled := !is_bot_account }

example :
    (runLoop allLegalRules "u" initLoopState
      [.gameFull ["a1", "b1"] "u" "v", .gameState ["a1", "b1"]]).2.1.length = 1 := by
  decide

/-! ## The export-polling fallback (`fallback_poll_game`, lines 224-260) -/

/-- One poll iteration's input: either `fetch_game_export` raised
(lines 236-240, the iteration only sleeps and retries), or a payload
with its replayed move list, the two names from
`extract_names_from_export`, and the `status` field (`none` when absent
or not a string). -/
inductive PollEvent where
  | fetchError
  | payload (ms : List String) (white black : String) (status : Option String)
deriving DecidableEq, Repr

/-- Whether the `status` check at line 256 ends the polling loop:
`status` is a string whose lowercase form is neither "started" nor
"created". -/
def statusEndsPolling : Option String → Bool
  | none => false
  | some st => !(lower st = "started" ∨ lower st = "created")

/-- One iteration of the `fallback_poll_game` loop body (lines 235-260)
on the stored `last_position_key`.  Returns `none` when `push_uci`
raises on an illegal move (line 248, nothing catches it — the worker
thread dies); otherwise the new key, the `analyse_and_print_position`
outcome when the key changed, and whether the loop `break`s. -/
def fallback_poll_step (rules : Rules) (username : String)
    (lastKey : Option (Nat × Bool)) :
    PollEvent → Option (Option (Nat × Bool) × Option Action × Bool)
  | .fetchError => some (lastKey, none, false)
  | .payload ms w b status =>
    if replayUci rules [] ms then
      let key := positionKey ms
      let step :=
        if lastKey = some key then (lastKey, (none : Option Action))
        else (some key, some (analyse_and_print_position rules ms username w b))
      some (step.1, step.2, statusEndsPolling status)
    else none

/-! ## Endpoint failover (`stream_game_lines`, lines 107-143) -/

/-- Outcome of one `requests.get` on one streaming endpoint: HTTP 200
(a usable line iterator), a non-200 status (recorded with its body),
or a raised exception (recorded with its message). -/
inductive EndpointResult where
  | success
  | httpFail (status : Nat) (body : String)
  | exc (msg : String)
deriving DecidableEq, Repr

/-- The endpoint candidate list built at lines 110-119: bot accounts
prefer the Bot API stream, others the Board API stream, each followed
by the opposite endpoint. -/
def endpointsFor (is_bot_account : Bool) : List String :=
  if is_bot_account then ["bot", "board"] else ["board", "bot"]

/-- Observable steps of `stream_game_lines`: one `requests.get` on an
endpoint during a numbered attempt, or the `time.sleep(delay_seconds)`
between passes (line 141; the default `delay_seconds=1.5` is 1500 ms). -/
inductive TraceItem where
  | call (attempt : Nat) (endpoint : String)
  | sleep (ms : Nat)
deriving DecidableEq, Repr

/-- The failure entry recorded for a non-success endpoint result
(lines 130-137), kept structured (the formatted message string is
presentation). -/
def failureEntry (endpoint : String) : EndpointResult → String × EndpointResult :=
  fun r => (endpoint, r)

/-- The inner `for endpoint_name, endpoint in endpoints` loop of one
pass (lines 124-138), against an oracle giving each `requests.get`'s
outcome per attempt number and endpoint.  Returns the succeeding
endpoint if any, the `last_failures` entries recorded this pass, and
the calls made, in order. -/
def passRun (oracle : Nat → String → EndpointResult) (attempt : Nat) :
    List String → Option String × List (String × EndpointResult) × List TraceItem
  | [] => (none, [], [])
  | e :: rest =>
    match oracle attempt e with
    | .success => (some e, [], [.call attempt e])
    | r =>
      let tail := passRun oracle attempt rest
      (tail.1, failureEntry e r :: tail.2.1, .call attempt e :: tail.2.2)

/-- Result of `stream_game_lines`: an opened stream on some endpoint,
or exhaustion with the `last_failures` of the final pass (joined at
line 143). -/
inductive OpenResult where
  | opened (endpoint : String)
  | failed (causes : List (String × EndpointResult))
deriving DecidableEq, Repr

/-- The `for attempt in range(1, attempts + 1)` loop of
`stream_game_lines` (lines 121-143), recursing on the number of
remaining passes; `lastFails` threads the `last_failures` variable
(reset at the top of each pass, returned after the final one). -/
def sglLoop (oracle : Nat → String → EndpointResult) (eps : List String) :
    Nat → Nat → List (String × EndpointResult) → OpenResult × List TraceItem
  | _, 0, lastFails => (.failed lastFails, [])
  | attempt, remaining + 1, _ =>
    let pass := passRun oracle attempt eps
    match pass.1 with
    | some e => (.opened e, pass.2.2)
    | none =>
      if remaining = 0 then (.failed pass.2.1, pass.2.2)
      else
        let rest := sglLoop oracle eps (attempt + 1) remaining pass.2.1
        (rest.1, pass.2.2 ++ TraceItem.sleep 1500 :: rest.2)

/-- `stream_game_lines(game_id, headers, is_bot_account, attempts=12,
delay_seconds=1.5)` (lines 107-143), with the transport abstracted into
the per-(attempt, endpoint) oracle. -/
def stream_game_lines (oracle : Nat → String → EndpointResult)
    (is_bot_account : Bool) (attempts : Nat := 12) : OpenResult × List TraceItem :=
  sglLoop oracle (endpointsFor is_bot_account) 1 attempts []

example :
    (stream_game_lines (fun _ _ => .httpFail 404 "") true).2.length = 35 := by
  decide

/-! ## Discovery and dispatch (`main`, lines 344-398) -/

/-- The `for event in stream_events(token)` loop of `main`
(lines 386-398): each element is `some id` for a `gameStart` event
carrying game id `id`, `none` for any other event.  `started` is the
`started_games` set (as a list of members), `spawned` the game ids for
which a `stream_game` thread has been started, in spawn order. -/
def dispatchLoop (started spawned : List String) :
    List (Option String) → List String × List String
  | [] => (started, spawned)
  | none :: rest => dispatchLoop started spawned rest
  | some gid :: rest =>
    if gid ∈ started then dispatchLoop started spawned rest
    else dispatchLoop (gid :: started) (spawned ++ [gid]) rest

/-- The whole dispatch of `main` (lines 374-398): the startup loop over
`get_active_game_ids` adds every snapshot id to `started_games` and
spawns a thread for every snapshot list entry unconditionally
(lines 377-384); the event loop then spawns for `gameStart` ids not
already in the set.  Returns the final `started_games` members and the
spawned ids in order. -/
def dispatch (snapshot : List String) (events : List (Option String)) :
    List String × List String :=
  dispatchLoop snapshot snapshot events

/-- The spawned-worker list of `dispatch`. -/
def dispatchSpawns (snapshot : List String) (events : List (Option String)) :
    List String :=
  (dispatch snapshot events).2

example : dispatchSpawns ["g1"] [some "g2", some "g1", none, some "g2"] = ["g1", "g2"] := by
  decide

/-! ## The ongoing-games polling script (detect_live_game_best_move.py) -/

/-- Helper for `splitWs`: consumes the characters, accumulating the
current word reversed. -/
def splitWsAux : List Char → List Char → List String
  | [], [] => []
  | [], acc => [String.mk acc.reverse]
  | c :: cs, acc =>
    if c.isWhitespace then
      match acc with
      | [] => splitWsAux cs []
      | _ => String.mk acc.reverse :: splitWsAux cs []
    else splitWsAux cs (c :: acc)

/-- Python's `str.split()`: split on runs of whitespace, dropping empty
pieces. -/
def splitWs (s : String) : List String :=
  splitWsAux s.data []

/-- Python's `str.strip()`: drop leading and trailing whitespace. -/
def strip (s : String) : String :=
  String.mk (((s.data.dropWhile Char.isWhitespace).reverse.dropWhile
    Char.isWhitespace).reverse)

/-- Replays SAN moves with `board.push_san` on a board built from the
optional initial FEN (`get_fen`, lines 100-104): `none` when some move
raises `ValueError`, otherwise the applied move list. -/
def replaySan (rules : Rules) (init : Option String) :
    List String → List String → Option (List String)
  | acc, [] => some acc
  | acc, m :: rest =>
    if rules.sanOk init acc m then replaySan rules init (acc ++ [m]) rest
    else none

/-- The fields of one game record that `get_fen` reads.  Each is
`none` when the JSON key is absent or its value is not a string
(the `isinstance` guards treat both alike for our purposes). -/
structure GameRec where
  fen : Option String
  lastFen : Option String
  initialFen : Option String
  moves : Option String
deriving DecidableEq, Repr

/-- The rebuild half of `get_fen` (lines 87-105): choose the start
board from `initialFen` (absent/blank/"startpos" means the standard
start; an invalid FEN means `chess.Board` raises `ValueError` and the
function returns `None`), then replay `moves` with `push_san`, a
failing move returning `None`, and render the final board's FEN. -/
def getFenRebuild (rules : Rules) (g : GameRec) : Option String :=
  let initParsed : Option (Option String) :=
    match g.initialFen with
    | none => some none
    | some s =>
      if strip s = "" ∨ s = "startpos" then some none
      else if rules.validFen s then some (some s)
      else none
  match initParsed with
  | none => none
  | some init =>
    match g.moves with
    | none => some (rules.renderFen init [])
    | some mstr =>
      match replaySan rules init [] (splitWs mstr) with
      | none => none
      | some ms => some (rules.renderFen init ms)

/-- `get_fen(game)` (detect_live_game_best_move.py, lines 80-105):
return a non-blank `fen`/`lastFen` field stripped (Python's `or` skips
a falsy empty `fen`), else rebuild from `initialFen` + `moves`. -/
def get_fen (rules : Rules) (g : GameRec) : Option String :=
  let fen0 :=
    match g.fen with
    | some s => if s ≠ "" then some s else g.lastFen
    | none => g.lastFen
  match fen0 with
  | some s => if strip s ≠ "" then some (strip s) else getFenRebuild rules g
  | none => getFenRebuild rules g

/-- Lookup in the `seen_positions` dict (game id → last analysed FEN),
modelled as an association list where the most recent binding is
first. -/
def seenLookup (seen : List (String × String)) (gid : String) : Option String :=
  match seen.find? (fun p => p.1 = gid) with
  | some p => some p.2
  | none => none

/-- The per-game dedup step of the best-move script's main loop
(lines 164-168): skip the game when `seen_positions.get(game_id)`
equals the current FEN, otherwise record the FEN and analyse.  Returns
whether the game is processed further, and the updated dict. -/
def mainDedupStep (seen : List (String × String)) (gid fen : String) :
    Bool × List (String × String) :=
  if seenLookup seen gid = some fen then (false, seen)
  else (true, (gid, fen) :: seen)

/-- The analysis time budget of the best-move script (lines 133, 188-192):
the `--analysis-time` CLI flag in milliseconds, defaulting to 0.8 s. -/
def bestMoveAnalysisBudgetMs (cliArg : Option Nat) : Nat :=
  cliArg.getD 800

/-- Modelled from the spec: the budget/classification table the spec
describes for the Turn Arbiter (`{fast: 0.3s, standard: 0.8s}`,
fast time controls getting the short budget).  No such table exists in
either script; this definition exists only to be compared with the
code's budget. -/
def specBudgetMs (isFastControl : Bool) : Nat :=
  if isFastControl then 300 else 800

example : get_fen allLegalRules ⟨none, none, none, some "e4 e5"⟩ = some "e4 e5" := by
  decide

/-! ## Concrete collaborator instances, for evaluating theorems at
concrete inputs -/

/-- A rules engine in which every position is terminal and every move
legal; realizable in chess at a checkmate position (e.g. after
1.e4 e5 2.Qh5 Ke7 3.Qxe5#, a terminal position with black to move). -/
def terminalRules : Rules where
  uciOk := fun _ _ => true
  sanOk := fun _ _ _ => true
  gameOver := fun _ => true
  validFen := fun _ => true
  renderFen := fun _ ms => String.intercalate " " ms

/-- A rules engine that accepts a move on the initial position and
rejects every later one; realizable, e.g. a move list that repeats its
first move, which is illegal on the resulting position. -/
def truncRules : Rules where
  uciOk := fun acc _ => acc.isEmpty
  sanOk := fun _ acc _ => acc.isEmpty
  gameOver := fun _ => false
  validFen := fun _ => true
  renderFen := fun _ ms => String.intercalate " " ms

/-- An endpoint oracle on which every `requests.get` yields HTTP 404. -/
def failingOracle : Nat → String → EndpointResult :=
  fun _ _ => .httpFail 404 "not found"

/-! ## Helper predicates and lemmas on the stream loop -/

/-- Whether a stream event is a `gameState` payload. -/
def isGameStateEv : StreamEvent → Bool
  | .gameState _ => true
  | _ => false

/-- Whether a stream event is a `gameState` payload whose move list
replays legally and encodes position key `k` — i.e. one more feed of
the same (ply count, side to move) state. -/
def encodesKey (rules : Rules) (k : Nat × Bool) : StreamEvent → Bool
  | .gameState ms => replayUci rules [] ms && positionKey ms = k
  | _ => false

theorem afterBoardUpdate_noNames (rules : Rules) (u : String) (s : LoopState)
    (hw : s.white = "" ∨ s.black = "") :
    afterBoardUpdate rules u s = (s, none) := by
  unfold afterBoardUpdate
  exact if_pos hw

theorem afterBoardUpdate_sameKey (rules : Rules) (u : String) (s : LoopState)
    (hk : s.lastKey = some (positionKey s.moves)) :
    afterBoardUpdate rules u s = (s, none) := by
  unfold afterBoardUpdate
  by_cases hw : s.white = "" ∨ s.black = ""
  · exact if_pos hw
  · rw [if_neg hw, if_pos hk]

/-- With both player names still unset, the loop emits no action, no
matter which `gameState` payloads arrive. -/
theorem runLoop_gameState_noNames (rules : Rules) (u : String) :
    ∀ (evs : List StreamEvent) (s : LoopState),
      (∀ e ∈ evs, isGameStateEv e = true) → (s.white = "" ∨ s.black = "") →
      (runLoop rules u s evs).2.1 = [] := by
  intro evs
  induction evs with
  | nil => intro s _ _; rfl
  | cons e rest ih =>
    intro s hall hw
    have he := hall e (List.mem_cons_self e rest)
    have hrest : ∀ e2 ∈ rest, isGameStateEv e2 = true :=
      fun e2 h2 => hall e2 (List.mem_cons_of_mem e h2)
    match e with
    | .gameFull ms w b => simp [isGameStateEv] at he
    | .skipped => simp [isGameStateEv] at he
    | .gameState ms =>
      cases hrep : replayUci rules [] ms with
      | false => simp [runLoop, processLine, hrep]
      | true =>
        have hs1 : ({ s with moves := ms } : LoopState).white = ""
            ∨ ({ s with moves := ms } : LoopState).black = "" := hw
        simp [runLoop, processLine, hrep,
          afterBoardUpdate_noNames rules u _ hs1]
        exact ih _ hrest hw

/-- With the stored key already equal to `k`, a run of events all
encoding key `k` emits no action. -/
theorem runLoop_sameKey (rules : Rules) (u : String) (k : Nat × Bool) :
    ∀ (evs : List StreamEvent) (s : LoopState),
      (∀ e ∈ evs, encodesKey rules k e = true) → s.lastKey = some k →
      (runLoop rules u s evs).2.1 = [] := by
  intro evs
  induction evs with
  | nil => intro s _ _; rfl
  | cons e rest ih =>
    intro s hall hk
    have he := hall e (List.mem_cons_self e rest)
    have hrest : ∀ e2 ∈ rest, encodesKey rules k e2 = true :=
      fun e2 h2 => hall e2 (List.mem_cons_of_mem e h2)
    match e with
    | .gameFull ms w b => simp [encodesKey] at he
    | .skipped => simp [encodesKey] at he
    | .gameState ms =>
      rw [encodesKey, Bool.and_eq_true, decide_eq_true_eq] at he
      obtain ⟨hrep, hkey⟩ := he
      have hk1 : ({ s with moves := ms } : LoopState).lastKey =
          some (positionKey ({ s with moves := ms } : LoopState).moves) := by
        simp [hk, hkey]
      simp [runLoop, processLine, hrep,
        afterBoardUpdate_sameKey rules u _ hk1]
      exact ih _ hrest hk

/-- A run of events all encoding one fixed key `k` triggers
`analyse_and_print_position` at most once, from any starting locals. -/
theorem runLoop_constKey_le_one (rules : Rules) (u : String) (k : Nat × Bool)
    (s : LoopState) (evs : List StreamEvent)
    (hall : ∀ e ∈ evs, encodesKey rules k e = true) :
    (runLoop rules u s evs).2.1.length ≤ 1 := by
  match evs with
  | [] => simp [runLoop]
  | e :: rest =>
    have he := hall e (List.mem_cons_self e rest)
    have hrest : ∀ e2 ∈ rest, encodesKey rules k e2 = true :=
      fun e2 h2 => hall e2 (List.mem_cons_of_mem e h2)
    have hrestGS : ∀ e2 ∈ rest, isGameStateEv e2 = true := by
      intro e2 h2
      have := hrest e2 h2
      match e2 with
      | .gameState ms2 => rfl
      | .gameFull ms2 w2 b2 => simp [encodesKey] at this
      | .skipped => simp [encodesKey] at this
    match e with
    | .gameFull ms w b => simp [encodesKey] at he
    | .skipped => simp [encodesKey] at he
    | .gameState ms =>
      rw [encodesKey, Bool.and_eq_true, decide_eq_true_eq] at he
      obtain ⟨hrep, hkey⟩ := he
      by_cases hw : s.white = "" ∨ s.black = ""
      · have hs1 : ({ s with moves := ms } : LoopState).white = ""
            ∨ ({ s with moves := ms } : LoopState).black = "" := hw
        simp [runLoop, processLine, hrep,
          afterBoardUpdate_noNames rules u _ hs1]
        rw [runLoop_gameState_noNames rules u rest { s with moves := ms } hrestGS hs1]
        simp
      · by_cases hk : s.lastKey = some k
        · have hk1 : ({ s with moves := ms } : LoopState).lastKey =
              some (positionKey ({ s with moves := ms } : LoopState).moves) := by
            simp [hk, hkey]
          simp [runLoop, processLine, hrep,
            afterBoardUpdate_sameKey rules u _ hk1]
          rw [runLoop_sameKey rules u k rest { s with moves := ms } hrest hk]
          simp
        · have hk1 : ¬ ({ s with moves := ms } : LoopState).lastKey =
              some (positionKey ({ s with moves := ms } : LoopState).moves) := by
            simpa [hkey] using hk
          simp only [runLoop, processLine, hrep, if_true]
          rw [afterBoardUpdate, if_neg hw, if_neg hk1]
          simp only [Option.toList_some, List.singleton_append]
          rw [runLoop_sameKey rules u k rest
            { s with moves := ms, lastKey := some (positionKey ms) } hrest
            (by simp [hkey])]
          simp

/-- A poll iteration whose payload reproduces the stored key emits no
action and leaves the key unchanged. -/
theorem fallback_poll_step_sameKey (rules : Rules) (u : String)
    (lk : Option (Nat × Bool)) (ms : List String) (w b : String)
    (st : Option String) (hrep : replayUci rules [] ms = true)
    (hk : lk = some (positionKey ms)) :
    fallback_poll_step rules u lk (.payload ms w b st) =
      some (lk, none, statusEndsPolling st) := by
  simp [fallback_poll_step, hrep, hk]

/-! ## C1 — the change key and regressing updates -/

/-- The two feed events of the C1 scenario: a `gameFull` at ply 10,
then a `gameState` reporting only ply 3. -/
def c1Events : List StreamEvent :=
  [.gameFull ["m1", "m2", "m3", "m4", "m5", "m6", "m7", "m8", "m9", "m10"] "w" "bk",
   .gameState ["m1", "m2", "m3"]]

/-- C1 counterexample: after a state at ply 10, an update reporting
ply 3 is NOT discarded — the stored key regresses to (3, black), the
state does not remain at ply 10, and the regressing update triggers a
second `analyse_and_print_position` call. -/
theorem C1_counterexample :
    (runLoop allLegalRules "u" initLoopState c1Events).1.lastKey = some (3, false) ∧
    (runLoop allLegalRules "u" initLoopState c1Events).1.lastKey ≠ some (10, true) ∧
    (runLoop allLegalRules "u" initLoopState c1Events).2.1.length = 2 := by
  decide

/-- C1 (amended): the loop discards an update exactly when its key
equals the stored key; an update whose key differs — including one
with fewer plies than the stored key — is applied, replacing the
stored key and position and triggering the arbiter, so after a state
at ply 10 an update reporting ply 3 leaves the state at ply 3. -/
theorem C1_only_equal_keys_discarded (rules : Rules) (u : String)
    (s : LoopState) (ms : List String)
    (hrep : replayUci rules [] ms = true)
    (hw : s.white ≠ "") (hb : s.black ≠ "") :
    (s.lastKey = some (positionKey ms) →
      processLine rules u s (.gameState ms) = some ({ s with moves := ms }, none)) ∧
    (s.lastKey ≠ some (positionKey ms) →
      processLine rules u s (.gameState ms) =
        some ({ s with moves := ms, lastKey := some (positionKey ms) },
          some (analyse_and_print_position rules ms u s.white s.black))) := by
  have hnames : ¬ (({ s with moves := ms } : LoopState).white = ""
      ∨ ({ s with moves := ms } : LoopState).black = "") := by
    simp [hw, hb]
  constructor
  · intro hk
    simp [processLine, hrep, afterBoardUpdate, hnames, hk]
  · intro hk
    simp only [processLine, hrep, if_true]
    rw [afterBoardUpdate, if_neg hnames, if_neg hk]

/-- The loop locals of the C1 scenario just before the regressing
update: position at ply 10, key (10, white to move). -/
def c1State : LoopState :=
  { moves := ["m1", "m2", "m3", "m4", "m5", "m6", "m7", "m8", "m9", "m10"],
    white := "w", black := "bk", lastKey := some (10, true) }

/-- C1 witness: at ply 10, the regressing ply-3 update is applied. -/
theorem C1_witness :
    processLine allLegalRules "u" c1State (.gameState ["m1", "m2", "m3"]) =
      some ({ c1State with moves := ["m1", "m2", "m3"], lastKey := some (3, false) },
        some (.request 800)) := by
  have h := (C1_only_equal_keys_discarded allLegalRules "u" c1State ["m1", "m2", "m3"]
    (by decide) (by decide) (by decide)).2 (by decide)
  exact h.trans (by decide)

/-! ## C2 — dedup idempotence -/

/-- C2: an update whose computed change key equals the stored key
produces no downstream action — both in the stream loop, where a run
of feed events encoding one fixed (ply, side) state triggers
`analyse_and_print_position` at most once, and in one export-polling
iteration, where a payload reproducing the stored key emits no
action. -/
theorem C2_dedup_idempotence :
    (∀ (rules : Rules) (u : String) (s : LoopState) (k : Nat × Bool)
      (evs : List StreamEvent),
      (∀ e ∈ evs, encodesKey rules k e = true) →
      (runLoop rules u s evs).2.1.length ≤ 1) ∧
    (∀ (rules : Rules) (u : String) (s : LoopState) (ms : List String),
      replayUci rules [] ms = true → s.lastKey = some (positionKey ms) →
      processLine rules u s (.gameState ms) = some ({ s with moves := ms }, none)) ∧
    (∀ (rules : Rules) (u : String) (lk : Option (Nat × Bool))
      (ms : List String) (w b : String) (st : Option String),
      replayUci rules [] ms = true → lk = some (positionKey ms) →
      fallback_poll_step rules u lk (.payload ms w b st) =
        some (lk, none, statusEndsPolling st)) := by
  refine ⟨fun rules u s k evs hall => runLoop_constKey_le_one rules u k s evs hall,
    fun rules u s ms hrep hk => ?_,
    fun rules u lk ms w b st hrep hk =>
      fallback_poll_step_sameKey rules u lk ms w b st hrep hk⟩
  have hk1 : ({ s with moves := ms } : LoopState).lastKey =
      some (positionKey ({ s with moves := ms } : LoopState).moves) := hk
  simp [processLine, hrep, afterBoardUpdate_sameKey rules u _ hk1]

/-- C2 witness: the same ply-1 state fed twice in a row triggers the
arbiter at most once, and a poll payload matching the stored key emits
nothing. -/
theorem C2_witness :
    (runLoop allLegalRules "u" { moves := [], white := "w", black := "bk", lastKey := none }
      [.gameState ["e2e4"], .gameState ["e2e4"]]).2.1.length ≤ 1 ∧
    fallback_poll_step allLegalRules "u" (some (1, false))
      (.payload ["e2e4"] "w" "bk" (some "started")) =
      some (some (1, false), none, false) := by
  constructor
  · exact C2_dedup_idempotence.1 allLegalRules "u" _ (1, false) _ (by decide)
  · have h := C2_dedup_idempotence.2.2 allLegalRules "u" (some (1, false))
      ["e2e4"] "w" "bk" (some "started") (by decide) (by decide)
    exact h.trans (by decide)

/-! ## C3 — the turn arbiter's case analysis -/

/-- C3 counterexample: on a terminal position with the opponent to
move (the monitored user "alice" is white, black is to move after one
ply, and the rules engine reports game over), the arbiter reports
waiting, not game over — the terminal check is NOT performed
regardless of the side to move. -/
theorem C3_counterexample :
    analyse_and_print_position terminalRules ["e2e4"] "alice" "alice" "bob" =
      .waiting ∧
    analyse_and_print_position terminalRules ["e2e4"] "alice" "alice" "bob" ≠
      .gameOver := by
  decide

/-- C3 (amended): the arbiter tests the side to move first.  If the
side to move differs from the monitored user's color it reports
waiting — even when the position is terminal — and never requests
analysis; when the monitored user is to move it reports game over on a
terminal position and otherwise requests analysis, never waiting. -/
theorem C3_turn_tested_before_terminal (rules : Rules) (ms : List String)
    (u w b : String) (hw : w ≠ "") (hb : b ≠ "") :
    (turn ms ≠ user_color u w →
      analyse_and_print_position rules ms u w b = .waiting) ∧
    (turn ms = user_color u w → rules.gameOver ms = true →
      analyse_and_print_position rules ms u w b = .gameOver) ∧
    (turn ms = user_color u w → rules.gameOver ms = false →
      analyse_and_print_position rules ms u w b = .request 800) ∧
    (turn ms = user_color u w →
      analyse_and_print_position rules ms u w b ≠ .waiting) ∧
    (turn ms ≠ user_color u w →
      analyse_and_print_position rules ms u w b ≠ .request 800) := by
  have hnames : ¬ (w = "" ∨ b = "") := by simp [hw, hb]
  unfold analyse_and_print_position
  rw [if_neg hnames]
  refine ⟨fun ht => ?_, fun ht hg => ?_, fun ht hg => ?_, fun ht => ?_, fun ht => ?_⟩
  · rw [if_neg ht]
  · rw [if_pos ht, if_pos hg]
  · rw [if_pos ht, hg]
    simp
  · rw [if_pos ht]
    split <;> simp
  · rw [if_neg ht]
    simp

/-- C3 witness: with the monitored user to move on a terminal
position, the arbiter reports game over; the hypotheses are satisfied
at a concrete two-ply position. -/
theorem C3_witness :
    analyse_and_print_position terminalRules ["e2e4", "e7e5"] "alice" "alice" "bob" =
      .gameOver :=
  (C3_turn_tested_before_terminal terminalRules ["e2e4", "e7e5"] "alice" "alice" "bob"
    (by decide) (by decide)).2.1 (by decide) (by decide)

/-! ## C4 — no polling fallback after a failed stream open -/

/-- C4 counterexample: a non-bot session (export polling available)
whose stream open exhausted every candidate terminates with the
failure diagnostics and does NOT enter export polling. -/
theorem C4_counterexample :
    (stream_game allLegalRules "u" false none).openFailed = true ∧
    (stream_game allLegalRules "u" false none).polled = false := by
  decide

/-- C4 (amended): when every streaming candidate fails,
`stream_game` reports the causes and returns without entering export
polling, even for accounts whose mode supports polling; export
polling is entered exactly when the stream was opened (and its loop
later finished or raised) and the account is not a bot account. -/
theorem C4_open_failure_skips_polling (rules : Rules) (u : String) (is_bot : Bool) :
    (stream_game rules u is_bot none).openFailed = true ∧
    (stream_game rules u is_bot none).polled = false ∧
    (∀ evs, (stream_game rules u is_bot (some evs)).polled = !is_bot) :=
  ⟨rfl, rfl, fun _ => rfl⟩

/-! ## C5 — endpoint failover order and retry bound -/

/-- The `requests.get` calls one full pass makes: every candidate
endpoint in order, under one attempt number. -/
def passCallsList (attempt : Nat) (eps : List String) : List TraceItem :=
  eps.map (TraceItem.call attempt)

/-- The `last_failures` entries one fully-failing pass records: one per
candidate endpoint, in order. -/
def passFailsList (oracle : Nat → String → EndpointResult) (attempt : Nat)
    (eps : List String) : List (String × EndpointResult) :=
  eps.map (fun e => (e, oracle attempt e))

/-- The call/sleep trace of a run in which every attempt fails: for
each pass, all candidates in order, with one fixed-delay sleep between
consecutive passes and none after the last. -/
def allFailTrace (eps : List String) : Nat → Nat → List TraceItem
  | _, 0 => []
  | a, r + 1 =>
    passCallsList a eps ++
      (if r = 0 then [] else TraceItem.sleep 1500 :: allFailTrace eps (a + 1) r)

theorem passRun_allFail (oracle : Nat → String → EndpointResult) (attempt : Nat) :
    ∀ eps : List String, (∀ e ∈ eps, oracle attempt e ≠ .success) →
      passRun oracle attempt eps =
        (none, passFailsList oracle attempt eps, passCallsList attempt eps) := by
  intro eps
  induction eps with
  | nil => intro _; rfl
  | cons e rest ih =>
    intro h
    have hrest : ∀ x ∈ rest, oracle attempt x ≠ .success :=
      fun x hx => h x (List.mem_cons_of_mem e hx)
    cases hr : oracle attempt e with
    | success => exact absurd hr (h e (List.mem_cons_self e rest))
    | httpFail st bd =>
      simp [passRun, hr, passFailsList, passCallsList, failureEntry, ih hrest]
    | exc m =>
      simp [passRun, hr, passFailsList, passCallsList, failureEntry, ih hrest]

theorem sglLoop_allFail (oracle : Nat → String → EndpointResult)
    (eps : List String) (h : ∀ a e, oracle a e ≠ .success) :
    ∀ (n a : Nat) (lf : List (String × EndpointResult)),
      sglLoop oracle eps a (n + 1) lf =
        (.failed (passFailsList oracle (a + n) eps), allFailTrace eps a (n + 1)) := by
  intro n
  induction n with
  | zero =>
    intro a lf
    unfold sglLoop
    rw [passRun_allFail oracle a eps (fun e _ => h a e)]
    simp [allFailTrace]
  | succ m ih =>
    intro a lf
    unfold sglLoop
    rw [passRun_allFail oracle a eps (fun e _ => h a e)]
    have harith : a + 1 + m = a + (m + 1) := by omega
    simp only [Nat.succ_ne_zero, if_neg, ih (a + 1), harith, allFailTrace]
    simp [allFailTrace]

/-- C5: the candidate order is [bot, board] for bot accounts and
[board, bot] otherwise, and when every `requests.get` fails,
`stream_game_lines` performs exactly 12 passes — each pass trying all
candidates in order before the single fixed 1.5 s sleep separating
passes — and gives up reporting the per-endpoint failure causes of the
final pass. -/
theorem C5_failover_order_and_bound :
    (endpointsFor true = ["bot", "board"] ∧ endpointsFor false = ["board", "bot"]) ∧
    (∀ (oracle : Nat → String → EndpointResult) (is_bot : Bool),
      (∀ a e, oracle a e ≠ .success) →
      stream_game_lines oracle is_bot =
        (.failed (passFailsList oracle 12 (endpointsFor is_bot)),
          allFailTrace (endpointsFor is_bot) 1 12)) := by
  refine ⟨⟨rfl, rfl⟩, fun oracle is_bot h => ?_⟩
  have h12 := sglLoop_allFail oracle (endpointsFor is_bot) h 11 1 []
  simpa [stream_game_lines] using h12

/-- C5 witness: on an oracle failing every request with HTTP 404, a
bot-account open makes 24 calls (two per pass) and 11 sleeps, in the
canonical order, and reports the final pass's two failure causes. -/
theorem C5_witness :
    (∀ a e, failingOracle a e ≠ EndpointResult.success) ∧
    stream_game_lines failingOracle true =
      (.failed (passFailsList failingOracle 12 (endpointsFor true)),
        allFailTrace (endpointsFor true) 1 12) ∧
    (stream_game_lines failingOracle true).2.length = 35 := by
  have hno : ∀ a e, failingOracle a e ≠ EndpointResult.success :=
    fun a e hx => EndpointResult.noConfusion hx
  refine ⟨hno, C5_failover_order_and_bound.2 failingOracle true hno, by decide⟩

/-! ## C6 — rejected moves and replay -/

/-- C6 counterexample: a move list whose second move the rules engine
rejects.  `get_fen` returns `None` for the whole update — not the FEN
of the legal one-move prefix that best-effort truncation would give —
and in the stream loop the same payload aborts the handler (the
`push_uci` exception escapes the loop body) instead of yielding a
truncated position. -/
theorem C6_counterexample :
    get_fen truncRules ⟨none, none, none, some "e4 e4"⟩ = none ∧
    get_fen truncRules ⟨none, none, none, some "e4 e4"⟩ ≠
      some (truncRules.renderFen none ["e4"]) ∧
    (runLoop truncRules "u" initLoopState [.gameState ["e2e4", "e2e4"]]).2.2 = true := by
  decide

/-- C6 (amended): a move the rules engine rejects does not truncate
the replay into a best-effort prefix.  In the stream loop and the
export-polling loop the raised exception aborts the handler for that
feed; in `get_fen` the whole update yields `None`. -/
theorem C6_illegal_move_fails_whole_update :
    (∀ (rules : Rules) (u : String) (s : LoopState) (ms : List String),
      replayUci rules [] ms = false →
      processLine rules u s (.gameState ms) = none) ∧
    (∀ (rules : Rules) (u : String) (lk : Option (Nat × Bool))
      (ms : List String) (w b : String) (st : Option String),
      replayUci rules [] ms = false →
      fallback_poll_step rules u lk (.payload ms w b st) = none) ∧
    (∀ (rules : Rules) (mstr : String),
      replaySan rules none [] (splitWs mstr) = none →
      get_fen rules ⟨none, none, none, some mstr⟩ = none) := by
  refine ⟨fun rules u s ms h => ?_, fun rules u lk ms w b st h => ?_,
    fun rules mstr h => ?_⟩
  · simp [processLine, h]
  · simp [fallback_poll_step, h]
  · simp [get_fen, getFenRebuild, h]

/-- C6 witness: the whole-update failure at a concrete two-move list
whose second move is rejected. -/
theorem C6_witness :
    get_fen truncRules ⟨none, none, none, some "a4 a4"⟩ = none :=
  C6_illegal_move_fails_whole_update.2.2 truncRules "a4 a4" (by decide)

/-! ## C7 — one worker per session id -/

/-- C7 counterexample: a startup snapshot listing the same game id
twice spawns two workers for it — the startup loop spawns one thread
per snapshot list entry without consulting `started_games`. -/
theorem C7_counterexample :
    dispatchSpawns ["g1", "g1"] [] = ["g1", "g1"] ∧
    ¬ (dispatchSpawns ["g1", "g1"] []).Nodup := by
  decide

theorem dispatchLoop_nodup :
    ∀ (events : List (Option String)) (started spawned : List String),
      spawned.Nodup → (∀ x ∈ spawned, x ∈ started) →
      (dispatchLoop started spawned events).2.Nodup := by
  intro events
  induction events with
  | nil => intro _ _ h _; exact h
  | cons e rest ih =>
    intro started spawned hnd hsub
    match e with
    | none => exact ih started spawned hnd hsub
    | some gid =>
      by_cases hg : gid ∈ started
      · simp only [dispatchLoop, if_pos hg]
        exact ih started spawned hnd hsub
      · simp only [dispatchLoop, if_neg hg]
        refine ih _ _ ?_ ?_
        · have hnotin : gid ∉ spawned := fun hx => hg (hsub gid hx)
          simp [List.nodup_append, hnd, hnotin]
        · intro x hx
          rcases List.mem_append.mp hx with h1 | h1
          · exact List.mem_cons_of_mem _ (hsub x h1)
          · rw [List.mem_singleton] at h1
            rw [h1]
            exact List.mem_cons_self _ _

/-- C7 (amended): the event loop ignores any `gameStart` id already in
`started_games` (which contains every snapshot id and every earlier
event id), so — provided the startup snapshot itself lists no id twice
— no session id ever gets a second worker.  The startup loop spawns
one worker per snapshot list entry unconditionally. -/
theorem C7_dedup_given_nodup_snapshot (snapshot : List String)
    (events : List (Option String)) (h : snapshot.Nodup) :
    (dispatchSpawns snapshot events).Nodup :=
  dispatchLoop_nodup events snapshot snapshot h (fun _ hx => hx)

/-- C7 witness: a duplicate-free snapshot plus events repeating both a
snapshot id and an event id spawns each id once. -/
theorem C7_witness : (dispatchSpawns ["g1"] [some "g2", some "g1", some "g2"]).Nodup :=
  C7_dedup_given_nodup_snapshot ["g1"] [some "g2", some "g1", some "g2"] (by decide)

/-! ## C8 — session registry entries are never released -/

/-- C8 counterexample: with no startup games, a `gameStart` for "g1"
followed by a second `gameStart` for "g1" spawns only one worker —
there is no release on worker exit, so the restart the claim promises
never happens. -/
theorem C8_counterexample :
    dispatchSpawns [] [some "g1", some "g1"] = ["g1"] ∧
    dispatchSpawns [] [some "g1", some "g1"] ≠ ["g1", "g1"] := by
  decide

theorem dispatchLoop_append (evs1 : List (Option String)) :
    ∀ (evs2 : List (Option String)) (started spawned : List String),
      dispatchLoop started spawned (evs1 ++ evs2) =
        dispatchLoop (dispatchLoop started spawned evs1).1
          (dispatchLoop started spawned evs1).2 evs2 := by
  induction evs1 with
  | nil => intro _ _ _; rfl
  | cons e rest ih =>
    intro evs2 started spawned
    match e with
    | none => exact ih evs2 started spawned
    | some gid =>
      by_cases hg : gid ∈ started
      · simp only [List.cons_append, dispatchLoop, if_pos hg]
        exact ih evs2 started spawned
      · simp only [List.cons_append, dispatchLoop, if_neg hg]
        exact ih evs2 _ _

theorem dispatchLoop_started_monotone :
    ∀ (events : List (Option String)) (started spawned : List String)
      (x : String), x ∈ started → x ∈ (dispatchLoop started spawned events).1 := by
  intro events
  induction events with
  | nil => intro _ _ _ hx; exact hx
  | cons e rest ih =>
    intro started spawned x hx
    match e with
    | none => exact ih started spawned x hx
    | some gid =>
      by_cases hg : gid ∈ started
      · simp only [dispatchLoop, if_pos hg]
        exact ih started spawned x hx
      · simp only [dispatchLoop, if_neg hg]
        exact ih _ _ x (List.mem_cons_of_mem gid hx)

/-- C8 (amended): `started_games` only ever grows — no code path
removes an id when a worker exits — and a later `gameStart` carrying
an id already in the registry spawns nothing, whether or not that id's
worker has finished. -/
theorem C8_registry_never_released :
    (∀ (events : List (Option String)) (started spawned : List String)
      (x : String), x ∈ started → x ∈ (dispatchLoop started spawned events).1) ∧
    (∀ (snapshot : List String) (events : List (Option String)) (gid : String),
      gid ∈ (dispatch snapshot events).1 →
      dispatchSpawns snapshot (events ++ [some gid]) = dispatchSpawns snapshot events) := by
  refine ⟨dispatchLoop_started_monotone, fun snapshot events gid hg => ?_⟩
  unfold dispatchSpawns dispatch
  rw [dispatchLoop_append events [some gid] snapshot snapshot]
  have hg2 : gid ∈ (dispatchLoop snapshot snapshot events).1 := hg
  simp only [dispatchLoop, if_pos hg2]

/-- C8 witness: a `gameStart` for a snapshot id spawns nothing, now or
ever. -/
theorem C8_witness :
    dispatchSpawns ["g1"] [some "g1"] = dispatchSpawns ["g1"] [] := by
  have h := C8_registry_never_released.2 ["g1"] [] "g1" (by decide)
  simpa using h

/-! ## C9 — the analysis time budget -/

/-- C9 counterexample: the streaming script hands the engine an 800 ms
budget on a concrete position — including under a fast time control,
where the claimed configuration table prescribes 300 ms — because the
budget is the literal `time=0.8` at line 187, with no classification
input at all. -/
theorem C9_counterexample :
    analyse_and_print_position allLegalRules ["a2a3", "h7h6"] "w" "w" "bk" =
      .request 800 ∧
    specBudgetMs true = 300 ∧
    (800 : Nat) ≠ 300 := by
  decide

/-- C9 (amended): the streaming script's analysis budget is the
hardcoded constant 0.8 s — every engine request carries 800 ms,
whatever the session or position — and the polling script's budget is
the `--analysis-time` CLI flag defaulting to 0.8 s; neither consults a
time-control classification. -/
theorem C9_budget_hardcoded :
    (∀ (rules : Rules) (ms : List String) (u w b : String) (t : Nat),
      analyse_and_print_position rules ms u w b = .request t → t = 800) ∧
    (∀ cliArg, bestMoveAnalysisBudgetMs cliArg = cliArg.getD 800) := by
  refine ⟨fun rules ms u w b t h => ?_, fun _ => rfl⟩
  unfold analyse_and_print_position at h
  split at h
  · exact Action.noConfusion h
  · split at h
    · split at h
      · exact Action.noConfusion h
      · injection h with h800
        exact h800.symm
    · exact Action.noConfusion h

/-- C9 witness: a concrete engine request, necessarily at 800 ms. -/
theorem C9_witness :
    analyse_and_print_position allLegalRules [] "z" "z" "y" = .request 800 ∧
    (800 : Nat) = 800 :=
  ⟨by decide, C9_budget_hardcoded.1 allLegalRules [] "z" "z" "y" 800 (by decide)⟩

/-! ## C10 — change-key granularity: (ply, side) versus full FEN -/

/-- C10: in the streaming and export-polling paths the change key is
exactly `(len(board.move_stack), board.turn)`, so two consecutive
updates whose move lists have equal length — and hence equal side to
move — compare equal even when the moves differ, and the second
triggers no new analysis; one polling iteration behaves the same; the
ongoing-games script instead keys on the full FEN string, so a changed
FEN under the same game id is treated as a distinct position and
analysed. -/
theorem C10_change_key_granularity :
    (∀ ms : List String, positionKey ms = (ms.length, turn ms)) ∧
    (∀ (rules : Rules) (u : String) (s : LoopState) (ms1 ms2 : List String),
      replayUci rules [] ms1 = true → replayUci rules [] ms2 = true →
      ms1.length = ms2.length →
      (runLoop rules u s [.gameState ms1, .gameState ms2]).2.1.length ≤ 1) ∧
    (∀ (rules : Rules) (u : String) (ms1 ms2 : List String) (w b : String)
      (st : Option String),
      replayUci rules [] ms2 = true → ms1.length = ms2.length →
      fallback_poll_step rules u (some (positionKey ms1)) (.payload ms2 w b st) =
        some (some (positionKey ms1), none, statusEndsPolling st)) ∧
    (∀ (seen : List (String × String)) (gid f1 f2 : String),
      seenLookup seen gid = some f1 → f1 ≠ f2 →
      (mainDedupStep seen gid f2).1 = true ∧
      (mainDedupStep seen gid f2).2 = (gid, f2) :: seen) := by
  refine ⟨fun ms => rfl, fun rules u s ms1 ms2 h1 h2 hlen => ?_,
    fun rules u ms1 ms2 w b st h2 hlen => ?_, fun seen gid f1 f2 hlook hne => ?_⟩
  · apply runLoop_constKey_le_one rules u (positionKey ms1) s
    intro e he
    have hkey : positionKey ms2 = positionKey ms1 := by
      simp [positionKey, turn, hlen]
    rcases List.mem_cons.mp he with rfl | he2
    · simp [encodesKey, h1]
    · rcases List.mem_singleton.mp he2 with rfl
      simp [encodesKey, h2, hkey]
  · have hkey : positionKey ms2 = positionKey ms1 := by
      simp [positionKey, turn, hlen]
    exact fallback_poll_step_sameKey rules u _ ms2 w b st h2 (by rw [hkey])
  · have hcond : ¬ seenLookup seen gid = some f2 := by
      rw [hlook]
      simp [hne]
    constructor <;> simp [mainDedupStep, hcond]

/-- C10 witness: consecutive one-ply updates with different moves
(e.g. 1.e4 then, after a takeback, 1.d4) trigger at most one analysis
in the stream loop, while the FEN-keyed script treats a changed FEN as
a new position. -/
theorem C10_witness :
    (runLoop allLegalRules "u"
      { moves := [], white := "w", black := "bk", lastKey := none }
      [.gameState ["e2e4"], .gameState ["d2d4"]]).2.1.length ≤ 1 ∧
    (mainDedupStep [("g1", "FEN1")] "g1" "FEN2").1 = true :=
  ⟨C10_change_key_granularity.2.1 allLegalRules "u" _ ["e2e4"] ["d2d4"]
      (by decide) (by decide) (by decide),
    (C10_change_key_granularity.2.2.2 [("g1", "FEN1")] "g1" "FEN1" "FEN2"
      (by decide) (by decide)).1⟩

end LiveStream
